import Mathlib

/-!
Shallow embedding of `src/lsh.c`, a minimal interactive shell
(read a line, split it on whitespace, dispatch to a builtin or launch an
external program, loop until a builtin returns 0).

Conventions of the embedding:
* C strings are `List Char`; the C `char **args` vector (tokens followed by a
  `NULL` sentinel) is `List (Option (List Char))`, where `none` is `NULL`.
* The operator input stream is a `List Char`; the end of the list is `EOF`.
* Operating-system behaviour that the program merely observes (`chdir`
  success, `fork` success, `execvp` success, the successive statuses that
  `waitpid` reports) is an oracle record `OS`.
* Functions that may block forever (the `waitpid` loop while the child is
  only stopped) return `Option`: `none` means the call has not returned.
* The interactive loop is modelled with explicit fuel (number of
  iterations the model is willing to run).
-/

namespace Lsh

/-- `" \t\r\n\a"`, the delimiter set `LSH_TOK_DELIM` of `lsh_split_line`. -/
def LSH_TOK_DELIM : List Char := [' ', '\t', '\r', '\n', '\x07']

/-- `EXIT_SUCCESS` of the C library. -/
def EXIT_SUCCESS : Nat := 0

/-- `EXIT_FAILURE` of the C library. -/
def EXIT_FAILURE : Nat := 1

/-- Whether a character is one of the `strtok` delimiters. -/
def isDelim (c : Char) : Bool := LSH_TOK_DELIM.contains c

/-- Split a character list at every delimiter, keeping empty fields: the
fields of `splitFields l` are the (possibly empty) maximal delimiter-free
segments of `l`. Helper for the `strtok` scan of `lsh_split_line`. -/
def splitFields : List Char → List (List Char)
  | [] => [[]]
  | c :: cs =>
    if isDelim c then [] :: splitFields cs
    else
      match splitFields cs with
      | [] => [[c]]
      | f :: fs => (c :: f) :: fs

/-- The token sequence produced by the `strtok` loop of `lsh_split_line`:
the maximal nonempty runs of non-delimiter characters, in order.  -/
def tokenize (l : List Char) : List (List Char) :=
  (splitFields l).filter (fun t => !t.isEmpty)

/-- `lsh_split_line`: the returned C vector holds the tokens followed by the
`NULL` sentinel (`tokens[position] = NULL`). -/
def lsh_split_line (line : List Char) : List (Option (List Char)) :=
  (tokenize line).map some ++ [none]

/-- Reading `args[i]` from a sentinel-terminated vector: the element when in
range, `NULL` otherwise. -/
def getArg (args : List (Option (List Char))) (i : Nat) : Option (List Char) :=
  args.getD i none

/-- Join a token list with single spaces (used to state idempotence of
tokenization on already-split input). -/
def joinSp : List (List Char) → List Char
  | [] => []
  | [t] => t
  | t :: t' :: ts => t ++ ' ' :: joinSp (t' :: ts)

/-- `lsh_read_line`: read characters from the operator stream until a newline
or end-of-input, returning the accumulated line (newline stripped, implicitly
null-terminated) and the remaining stream. End-of-input is the end of the
list; on it the line read so far is returned, like the `c == EOF` branch. -/
def lsh_read_line : List Char → List Char × List Char
  | [] => ([], [])
  | c :: cs =>
    if c = '\n' then ([], cs)
    else
      let r := lsh_read_line cs
      (c :: r.1, r.2)

/-- A `waitpid` status, as observed through the `WIFEXITED` / `WIFSIGNALED` /
`WIFSTOPPED` macros (POSIX semantics; the macros are not part of the
repository). `stopped` can be reported because the wait uses `WUNTRACED`. -/
inductive WStatus where
  | exited (code : Nat)
  | signaled (sig : Nat)
  | stopped (sig : Nat)
  deriving DecidableEq, Repr

/-- `WIFEXITED`: the child terminated normally. -/
def WIFEXITED : WStatus → Bool
  | .exited _ => true
  | _ => false

/-- `WIFSIGNALED`: the child was terminated by a signal. -/
def WIFSIGNALED : WStatus → Bool
  | .signaled _ => true
  | _ => false

/-- Oracle for the operating-system behaviour one command dispatch can
observe: whether `chdir` succeeds on a given path, whether `fork` succeeds,
whether `execvp` finds and loads the program, and the successive statuses
the child makes `waitpid(pid, &status, WUNTRACED)` report. -/
structure OS where
  chdirOk : List Char → Bool
  forkOk : Bool
  execOk : Bool
  waits : List WStatus

/-- The parent's `do { wpid = waitpid(pid, &status, WUNTRACED); } while
(!WIFEXITED(status) && !WIFSIGNALED(status))` loop: consume reported
statuses until a terminal one; `none` when the scripted statuses run out
without a terminal one, i.e. the parent is still blocked waiting. -/
def waitLoop : List WStatus → Option WStatus
  | [] => none
  | s :: rest => if WIFEXITED s || WIFSIGNALED s then some s else waitLoop rest

/-- Result of one builtin invocation: the `int` return value, the messages
written to `stderr`, the lines written to `stdout`, the path passed to a
`chdir` attempt (if any), and the path the working directory actually
changed to (if the attempt succeeded). -/
structure BuiltinResult where
  ret : Int
  errs : List String
  outs : List String
  chdirAttempt : Option (List Char)
  chdirDone : Option (List Char)
  deriving DecidableEq, Repr

def builtin_str : List (List Char) := ["cd".data, "help".data, "exit".data]

/-- `lsh_cd`: no `args[1]` → error message and no action; otherwise attempt
`chdir(args[1])` and `perror("lsh")` on failure. Always returns 1. -/
def lsh_cd (os : OS) (args : List (Option (List Char))) : BuiltinResult :=
  match getArg args 1 with
  | none =>
    ⟨1, ["lsh: expected argument to \"cd\""], [], none, none⟩
  | some path =>
    if os.chdirOk path then ⟨1, [], [], some path, some path⟩
    else ⟨1, ["lsh"], [], some path, none⟩

/-- `lsh_help`: print the static usage text and the builtin names; return 1. -/
def lsh_help (os : OS) (args : List (Option (List Char))) : BuiltinResult :=
  ⟨1,
   [],
   ["My own LSH.",
    "Type program names and args, and hit enter.",
    "The following are built in:"]
     ++ builtin_str.map (fun s => "  " ++ String.mk s)
     ++ ["Use the man command for info on other programs."],
   none, none⟩

/-- `lsh_exit`: `return 0;` and nothing else. -/
def lsh_exit (os : OS) (args : List (Option (List Char))) : BuiltinResult :=
  ⟨0, [], [], none, none⟩

def builtin_func : List (OS → List (Option (List Char)) → BuiltinResult) :=
  [lsh_cd, lsh_help, lsh_exit]

/-- The number of builtins (`sizeof(builtin_str) / sizeof(char *)`). -/
def lsh_num_builtins : Nat := builtin_str.length

/-- Observable outcome of `lsh_launch`: the `int` returned to the caller in
the original (parent) process, whether the `fork` failed, the parent's
stderr messages, the child's stderr messages, the exit code the child
passed to `exit` when `execvp` failed, the program the child's image was
replaced with when `execvp` succeeded, and the final `waitpid` status the
parent saw. -/
structure LaunchResult where
  ret : Int
  forkFailed : Bool
  parentErrs : List String
  childErrs : List String
  childExit : Option Nat
  execedProg : Option (List Char)
  finalStatus : Option WStatus
  deriving DecidableEq, Repr

/-- `lsh_launch`: `fork`; in the child `execvp(args[0], args)`, reporting
failure with `perror` and calling `exit(EXIT_FAILURE)` if it returns; on
`fork` failure `perror` in the parent; otherwise the parent repeats
`waitpid(.., WUNTRACED)` until the child has exited or been killed, then
returns 1. `none` means the parent is still blocked in the wait loop. -/
def lsh_launch (os : OS) (args : List (Option (List Char))) :
    Option LaunchResult :=
  if os.forkOk then
    match waitLoop os.waits with
    | none => none
    | some s =>
      if os.execOk then
        some ⟨1, false, [], [], none, getArg args 0, some s⟩
      else
        some ⟨1, false, [], ["lsh"], some EXIT_FAILURE, none, some s⟩
  else
    some ⟨1, true, ["lsh"], [], none, none, none⟩

/-- The dispatch decision of `lsh_execute`: empty command, `i`-th builtin,
or external launch. -/
inductive Dispatch where
  | empty
  | builtin (i : Nat)
  | launch
  deriving DecidableEq, Repr

/-- The `for` loop of `lsh_execute`: index of the first builtin name equal
to the command (by `strcmp`), scanning from the front. -/
def findMatch (cmd : List Char) : List (List Char) → Option Nat
  | [] => none
  | s :: rest =>
    if s = cmd then some 0 else (findMatch cmd rest).map (· + 1)

/-- Observable outcome of `lsh_execute`: the returned status, which path
dispatched, and the result of the builtin or the launch on that path. -/
structure ExecResult where
  ret : Int
  action : Dispatch
  builtinRes : Option BuiltinResult
  launchRes : Option LaunchResult
  deriving DecidableEq, Repr

/-- `lsh_execute`: `args[0] == NULL` → return 1 (empty command); else run
the first builtin whose name matches `args[0]`; else `lsh_launch`. `none`
means the launch never returned. -/
def lsh_execute (os : OS) (args : List (Option (List Char))) :
    Option ExecResult :=
  match getArg args 0 with
  | none => some ⟨1, .empty, none, none⟩
  | some cmd =>
    match findMatch cmd builtin_str with
    | some i =>
      match builtin_func.get? i with
      | some f =>
        let r := f os args
        some ⟨r.ret, .builtin i, some r, none⟩
      | none => some ⟨1, .builtin i, none, none⟩
    | none =>
      match lsh_launch os args with
      | some lr => some ⟨lr.ret, .launch, none, some lr⟩
      | none => none

/-- Outcome of running the dispatch loop for a bounded number of
iterations. -/
inductive LoopOutcome where
  | finished
  | fuelOut
  | blocked
  deriving DecidableEq, Repr

/-- The `do { .. } while (status)` loop of `lsh_loop`, with explicit fuel.
`k` counts iterations so the oracle `oss` can differ per dispatch. Each
iteration reads a line, splits it, executes it, and continues while the
status is nonzero. `blocked` means a launch never returned. -/
def lsh_loop_aux (oss : Nat → OS) :
    Nat → Nat → List Char → LoopOutcome
  | 0, _, _ => .fuelOut
  | fuel + 1, k, stream =>
    let r := lsh_read_line stream
    let args := lsh_split_line r.1
    match lsh_execute (oss k) args with
    | none => .blocked
    | some er =>
      if er.ret = 0 then .finished
      else lsh_loop_aux oss fuel (k + 1) r.2

/-- `lsh_loop`, started at iteration 0. -/
def lsh_loop (oss : Nat → OS) (fuel : Nat) (stream : List Char) :
    LoopOutcome :=
  lsh_loop_aux oss fuel 0 stream

/-- `main`: run the loop; when it terminates, return `EXIT_SUCCESS`.
`none` when the loop did not terminate within the modelled fuel. -/
def main_ret (oss : Nat → OS) (fuel : Nat) (stream : List Char) :
    Option Nat :=
  match lsh_loop oss fuel stream with
  | .finished => some EXIT_SUCCESS
  | _ => none

/-- The successive lines `lsh_read_line` yields from a stream. -/
def streamLines : Nat → List Char → List (List Char)
  | 0, _ => []
  | fuel + 1, stream =>
    let r := lsh_read_line stream
    r.1 :: streamLines fuel r.2

/-- A concrete oracle: everything succeeds; the child is first stopped,
then exits. -/
def osA : OS := ⟨fun _ => true, true, true, [WStatus.stopped 19, WStatus.exited 0]⟩

/-- A concrete oracle: `fork` succeeds, `execvp` fails, the child exits
with failure; `chdir` fails. -/
def osB : OS := ⟨fun _ => false, true, false, [WStatus.exited 1]⟩

/-- A concrete oracle: `fork` fails. -/
def osC : OS := ⟨fun _ => true, false, true, []⟩

/-- A concrete oracle: the child is stopped and never reaches a terminal
state within the scripted statuses. -/
def osD : OS := ⟨fun _ => true, true, true, [WStatus.stopped 19, WStatus.stopped 20]⟩

/-- The per-iteration oracle that always answers `osA`. -/
def ossA : Nat → OS := fun _ => osA

end Lsh

namespace Lsh

theorem splitFields_ne_nil (l : List Char) : splitFields l ≠ [] := by
  induction l with
  | nil => simp [splitFields]
  | cons c cs ih =>
    by_cases h : isDelim c
    · simp [splitFields, h]
    · simp only [splitFields, h]
      cases hfs : splitFields cs with
      | nil => simp
      | cons f fs => simp

theorem mem_splitFields_delim_free (l : List Char) :
    ∀ f ∈ splitFields l, ∀ c ∈ f, isDelim c = false := by
  induction l with
  | nil =>
    intro f hf c hc
    simp [splitFields] at hf
    subst hf
    simp at hc
  | cons a as ih =>
    intro f hf c hc
    by_cases h : isDelim a
    · simp only [splitFields, h, if_pos] at hf
      rcases List.mem_cons.mp hf with h1 | h1
      · subst h1; simp at hc
      · exact ih f h1 c hc
    · simp only [splitFields, h] at hf
      cases hfs : splitFields as with
      | nil => exact absurd hfs (splitFields_ne_nil as)
      | cons g gs =>
        rw [hfs] at hf
        simp only [if_neg] at hf
        rcases List.mem_cons.mp hf with h1 | h1
        · subst h1
          rcases List.mem_cons.mp hc with h2 | h2
          · subst h2; simpa using h
          · exact ih g (by rw [hfs]; exact List.mem_cons_self g gs) c h2
        · exact ih f (by rw [hfs]; exact List.mem_cons.mpr (Or.inr h1)) c hc

theorem mem_tokenize_nonempty_delim_free (l : List Char) :
    ∀ t ∈ tokenize l, t ≠ [] ∧ ∀ c ∈ t, isDelim c = false := by
  intro t ht
  unfold tokenize at ht
  rw [List.mem_filter] at ht
  refine ⟨?_, mem_splitFields_delim_free l t ht.1⟩
  intro hnil
  subst hnil
  simp at ht

theorem tokenize_nil : tokenize [] = [] := by decide

theorem tokenize_delim_cons (c : Char) (cs : List Char) (h : isDelim c = true) :
    tokenize (c :: cs) = tokenize cs := by
  unfold tokenize
  simp [splitFields, h]

theorem tokenize_all_delim (l : List Char) (h : ∀ c ∈ l, isDelim c = true) :
    tokenize l = [] := by
  induction l with
  | nil => exact tokenize_nil
  | cons c cs ih =>
    rw [tokenize_delim_cons c cs (h c (List.mem_cons_self c cs))]
    exact ih fun x hx => h x (List.mem_cons.mpr (Or.inr hx))

/-- Prepending a delimiter-free prefix extends the head field. -/
theorem splitFields_append_free (t l : List Char)
    (ht : ∀ c ∈ t, isDelim c = false) :
    ∃ f fs, splitFields l = f :: fs ∧ splitFields (t ++ l) = (t ++ f) :: fs := by
  induction t with
  | nil =>
    cases hfs : splitFields l with
    | nil => exact absurd hfs (splitFields_ne_nil l)
    | cons f fs => exact ⟨f, fs, rfl, by simp [hfs]⟩
  | cons a as ih =>
    have ha : isDelim a = false := ht a (List.mem_cons_self a as)
    obtain ⟨f, fs, h1, h2⟩ := ih fun c hc => ht c (List.mem_cons.mpr (Or.inr hc))
    refine ⟨f, fs, h1, ?_⟩
    simp only [List.cons_append, splitFields, ha, Bool.false_eq_true, if_false]
    rw [show as.append l = as ++ l from rfl, h2]

theorem tokenize_token_append (t : List Char) (d : Char) (r : List Char)
    (htne : t ≠ []) (htf : ∀ c ∈ t, isDelim c = false) (hd : isDelim d = true) :
    tokenize (t ++ d :: r) = t :: tokenize r := by
  obtain ⟨f, fs, h1, h2⟩ := splitFields_append_free t (d :: r) htf
  have hfr : splitFields (d :: r) = [] :: splitFields r := by
    simp [splitFields, hd]
  rw [hfr] at h1
  injection h1 with hf hfs
  subst hf
  subst hfs
  unfold tokenize
  rw [h2]
  simp [htne]

theorem tokenize_single (t : List Char)
    (htne : t ≠ []) (htf : ∀ c ∈ t, isDelim c = false) :
    tokenize t = [t] := by
  obtain ⟨f, fs, h1, h2⟩ := splitFields_append_free t [] htf
  have : splitFields ([] : List Char) = [[]] := by decide
  rw [this] at h1
  injection h1 with hf hfs
  subst hf
  subst hfs
  unfold tokenize
  rw [List.append_nil] at h2
  rw [h2]
  simp [htne]

/-- Re-tokenizing a space-joined list of nonempty delimiter-free tokens
recovers the list. -/
theorem tokenize_joinSp (ts : List (List Char))
    (h : ∀ t ∈ ts, t ≠ [] ∧ ∀ c ∈ t, isDelim c = false) :
    tokenize (joinSp ts) = ts := by
  induction ts with
  | nil => exact tokenize_nil
  | cons t ts ih =>
    cases ts with
    | nil =>
      have ht := h t (List.mem_cons_self t [])
      simpa [joinSp] using tokenize_single t ht.1 ht.2
    | cons t' ts' =>
      have ht := h t (List.mem_cons_self t (t' :: ts'))
      have hsp : isDelim ' ' = true := by decide
      calc tokenize (joinSp (t :: t' :: ts'))
          = tokenize (t ++ ' ' :: joinSp (t' :: ts')) := rfl
        _ = t :: tokenize (joinSp (t' :: ts')) :=
            tokenize_token_append t ' ' _ ht.1 ht.2 hsp
        _ = t :: (t' :: ts') := by
            rw [ih fun x hx => h x (List.mem_cons.mpr (Or.inr hx))]

/-- Tokenization is idempotent: re-tokenizing the space-joined output of a
tokenization gives the same token list. -/
theorem tokenize_idem (l : List Char) :
    tokenize (joinSp (tokenize l)) = tokenize l :=
  tokenize_joinSp (tokenize l) (mem_tokenize_nonempty_delim_free l)

end Lsh

namespace Lsh

theorem getArg_split_zero (l : List Char) :
    getArg (lsh_split_line l) 0 = (tokenize l).head? := by
  cases h : tokenize l with
  | nil => simp [lsh_split_line, getArg, h]
  | cons t ts => simp [lsh_split_line, getArg, h]

theorem lsh_cd_ret (os : OS) (args : List (Option (List Char))) :
    (lsh_cd os args).ret = 1 := by
  unfold lsh_cd
  cases getArg args 1 with
  | none => rfl
  | some p =>
    by_cases h : os.chdirOk p
    · simp [h]
    · simp [h]

theorem lsh_launch_eq_forkfail (os : OS) (args : List (Option (List Char)))
    (h : os.forkOk = false) :
    lsh_launch os args = some ⟨1, true, ["lsh"], [], none, none, none⟩ := by
  unfold lsh_launch
  rw [h]
  rfl

theorem lsh_launch_eq_blocked (os : OS) (args : List (Option (List Char)))
    (hf : os.forkOk = true) (hw : waitLoop os.waits = none) :
    lsh_launch os args = none := by
  unfold lsh_launch
  rw [hf, hw]
  rfl

theorem lsh_launch_eq_execok (os : OS) (args : List (Option (List Char)))
    (s : WStatus) (hf : os.forkOk = true) (he : os.execOk = true)
    (hw : waitLoop os.waits = some s) :
    lsh_launch os args = some ⟨1, false, [], [], none, getArg args 0, some s⟩ := by
  unfold lsh_launch
  rw [hf, hw, he]
  rfl

theorem lsh_launch_eq_execfail (os : OS) (args : List (Option (List Char)))
    (s : WStatus) (hf : os.forkOk = true) (he : os.execOk = false)
    (hw : waitLoop os.waits = some s) :
    lsh_launch os args =
      some ⟨1, false, [], ["lsh"], some EXIT_FAILURE, none, some s⟩ := by
  unfold lsh_launch
  rw [hf, hw, he]
  rfl

theorem lsh_launch_ret (os : OS) (args : List (Option (List Char)))
    (r : LaunchResult) (h : lsh_launch os args = some r) : r.ret = 1 := by
  by_cases hf : os.forkOk = true
  · cases hw : waitLoop os.waits with
    | none =>
      rw [lsh_launch_eq_blocked os args hf hw] at h
      exact absurd h (by simp)
    | some s =>
      by_cases he : os.execOk = true
      · rw [lsh_launch_eq_execok os args s hf he hw] at h
        injection h with h
        subst h
        rfl
      · rw [lsh_launch_eq_execfail os args s hf
          (by simpa using he) hw] at h
        injection h with h
        subst h
        rfl
  · rw [lsh_launch_eq_forkfail os args (by simpa using hf)] at h
    injection h with h
    subst h
    rfl

theorem lsh_execute_empty (os : OS) (args : List (Option (List Char)))
    (h : getArg args 0 = none) :
    lsh_execute os args = some ⟨1, Dispatch.empty, none, none⟩ := by
  unfold lsh_execute
  rw [h]

theorem lsh_execute_eq_cd (os : OS) (args : List (Option (List Char)))
    (h0 : getArg args 0 = some "cd".data) :
    lsh_execute os args =
      some ⟨(lsh_cd os args).ret, Dispatch.builtin 0, some (lsh_cd os args), none⟩ := by
  unfold lsh_execute
  rw [h0]
  rfl

theorem lsh_execute_eq_help (os : OS) (args : List (Option (List Char)))
    (h0 : getArg args 0 = some "help".data) :
    lsh_execute os args =
      some ⟨(lsh_help os args).ret, Dispatch.builtin 1, some (lsh_help os args), none⟩ := by
  unfold lsh_execute
  rw [h0]
  rfl

theorem lsh_execute_eq_exit (os : OS) (args : List (Option (List Char)))
    (h0 : getArg args 0 = some "exit".data) :
    lsh_execute os args =
      some ⟨(lsh_exit os args).ret, Dispatch.builtin 2, some (lsh_exit os args), none⟩ := by
  unfold lsh_execute
  rw [h0]
  rfl

theorem findMatch_builtin_none (cmd : List Char)
    (h1 : cmd ≠ "cd".data) (h2 : cmd ≠ "help".data) (h3 : cmd ≠ "exit".data) :
    findMatch cmd builtin_str = none := by
  simp [findMatch, builtin_str, Ne.symm h1, Ne.symm h2, Ne.symm h3]

theorem lsh_execute_eq_launch_some (os : OS) (args : List (Option (List Char)))
    (cmd : List Char) (lr : LaunchResult)
    (h0 : getArg args 0 = some cmd)
    (hfm : findMatch cmd builtin_str = none)
    (hl : lsh_launch os args = some lr) :
    lsh_execute os args = some ⟨lr.ret, Dispatch.launch, none, some lr⟩ := by
  unfold lsh_execute
  rw [h0]
  show ((match findMatch cmd builtin_str with
    | some i =>
      match builtin_func.get? i with
      | some f => some ⟨(f os args).ret, Dispatch.builtin i, some (f os args), none⟩
      | none => some ⟨1, Dispatch.builtin i, none, none⟩
    | none =>
      match lsh_launch os args with
      | some lr => some ⟨lr.ret, Dispatch.launch, none, some lr⟩
      | none => none : Option ExecResult)) = _
  rw [hfm]
  show ((match lsh_launch os args with
    | some lr => some ⟨lr.ret, Dispatch.launch, none, some lr⟩
    | none => none : Option ExecResult)) = _
  rw [hl]

theorem lsh_execute_eq_launch_none (os : OS) (args : List (Option (List Char)))
    (cmd : List Char)
    (h0 : getArg args 0 = some cmd)
    (hfm : findMatch cmd builtin_str = none)
    (hl : lsh_launch os args = none) :
    lsh_execute os args = none := by
  unfold lsh_execute
  rw [h0]
  show ((match findMatch cmd builtin_str with
    | some i =>
      match builtin_func.get? i with
      | some f => some ⟨(f os args).ret, Dispatch.builtin i, some (f os args), none⟩
      | none => some ⟨1, Dispatch.builtin i, none, none⟩
    | none =>
      match lsh_launch os args with
      | some lr => some ⟨lr.ret, Dispatch.launch, none, some lr⟩
      | none => none : Option ExecResult)) = _
  rw [hfm]
  show ((match lsh_launch os args with
    | some lr => some ⟨lr.ret, Dispatch.launch, none, some lr⟩
    | none => none : Option ExecResult)) = _
  rw [hl]

theorem exec_ret_zero_iff (os : OS) (args : List (Option (List Char)))
    (er : ExecResult) (h : lsh_execute os args = some er) :
    (er.ret = 0 ↔ getArg args 0 = some "exit".data) := by
  cases h0 : getArg args 0 with
  | none =>
    rw [lsh_execute_empty os args h0] at h
    injection h with h
    subst h
    simp
  | some cmd =>
    by_cases hcd : cmd = "cd".data
    · subst hcd
      rw [lsh_execute_eq_cd os args h0] at h
      injection h with h
      subst h
      constructor
      · intro hr
        simp [lsh_cd_ret] at hr
      · intro hr
        exact absurd hr (by decide)
    · by_cases hhp : cmd = "help".data
      · subst hhp
        rw [lsh_execute_eq_help os args h0] at h
        injection h with h
        subst h
        constructor
        · intro hr
          simp [lsh_help] at hr
        · intro hr
          exact absurd hr (by decide)
      · by_cases hex : cmd = "exit".data
        · subst hex
          rw [lsh_execute_eq_exit os args h0] at h
          injection h with h
          subst h
          simp [lsh_exit]
        · have hfm : findMatch cmd builtin_str = none :=
            findMatch_builtin_none cmd hcd hhp hex
          cases hl : lsh_launch os args with
          | none =>
            rw [lsh_execute_eq_launch_none os args cmd h0 hfm hl] at h
            exact absurd h (by simp)
          | some lr =>
            rw [lsh_execute_eq_launch_some os args cmd lr h0 hfm hl] at h
            injection h with h
            subst h
            have hret := lsh_launch_ret os args lr hl
            constructor
            · intro hr
              simp [hret] at hr
            · intro hr
              injection hr with hr
              exact absurd hr hex

theorem lsh_loop_aux_succ (oss : Nat → OS) (fuel k : Nat) (stream : List Char) :
    lsh_loop_aux oss (fuel + 1) k stream =
      match lsh_execute (oss k) (lsh_split_line (lsh_read_line stream).1) with
      | none => LoopOutcome.blocked
      | some er =>
        if er.ret = 0 then LoopOutcome.finished
        else lsh_loop_aux oss fuel (k + 1) (lsh_read_line stream).2 := rfl

end Lsh

namespace Lsh

theorem lsh_read_line_no_newline (s : List Char) (h : '\n' ∉ s) :
    lsh_read_line s = (s, []) := by
  induction s with
  | nil => rfl
  | cons c cs ih =>
    have hc : ¬c = '\n' := fun hh => h (hh ▸ List.mem_cons_self c cs)
    have hcs : '\n' ∉ cs := fun hh => h (List.mem_cons_of_mem c hh)
    simp [lsh_read_line, hc, ih hcs]

theorem lsh_read_line_newline (s t : List Char) (h : '\n' ∉ s) :
    lsh_read_line (s ++ '\n' :: t) = (s, t) := by
  induction s with
  | nil => simp [lsh_read_line]
  | cons c cs ih =>
    have hc : ¬c = '\n' := fun hh => h (hh ▸ List.mem_cons_self c cs)
    have hcs : '\n' ∉ cs := fun hh => h (List.mem_cons_of_mem c hh)
    simp [lsh_read_line, hc, ih hcs]

end Lsh

namespace Lsh

/-- Claim C1: when the launcher waits for its child, a status that only
reports the child as stopped never ends the wait — the wait is re-invoked
past every stop notification, returns only statuses for which the child
exited or was killed, stays blocked when only stop notifications arrive,
and the launcher returns to the loop (with 1) only once a terminal status
has been observed. -/
theorem claim_C1 :
    (∀ sig rest, waitLoop (WStatus.stopped sig :: rest) = waitLoop rest)
  ∧ (∀ ss s, waitLoop ss = some s → (WIFEXITED s || WIFSIGNALED s) = true)
  ∧ (∀ ss, (∀ s ∈ ss, WIFEXITED s = false ∧ WIFSIGNALED s = false) →
      waitLoop ss = none)
  ∧ (∀ os args, os.forkOk = true → waitLoop os.waits = none →
      lsh_launch os args = none)
  ∧ (∀ os args s, os.forkOk = true → waitLoop os.waits = some s →
      ∃ r, lsh_launch os args = some r ∧ r.ret = 1 ∧ r.finalStatus = some s) := by
  refine ⟨fun sig rest => rfl, ?_, ?_, ?_, ?_⟩
  · intro ss
    induction ss with
    | nil => intro s hs; simp [waitLoop] at hs
    | cons a rest ih =>
      intro s hs
      simp only [waitLoop] at hs
      by_cases ha : (WIFEXITED a || WIFSIGNALED a) = true
      · rw [if_pos ha] at hs
        injection hs with hs
        subst hs
        exact ha
      · rw [if_neg ha] at hs
        exact ih s hs
  · intro ss
    induction ss with
    | nil => intro _; rfl
    | cons a rest ih =>
      intro h
      have ha := h a (List.mem_cons_self a rest)
      have hstep : waitLoop (a :: rest) = waitLoop rest := by
        simp [waitLoop, ha.1, ha.2]
      rw [hstep]
      exact ih fun x hx => h x (List.mem_cons_of_mem a hx)
  · intro os args hf hw
    exact lsh_launch_eq_blocked os args hf hw
  · intro os args s hf hw
    by_cases he : os.execOk = true
    · exact ⟨_, lsh_launch_eq_execok os args s hf he hw, rfl, rfl⟩
    · exact ⟨_, lsh_launch_eq_execfail os args s hf (by simpa using he) hw,
        rfl, rfl⟩

/-- Witness for C1 at a concrete oracle whose child only ever reports
stopped: the parent's wait never returns, so neither does the launcher. -/
theorem claim_C1_witness :
    osD.forkOk = true ∧ waitLoop osD.waits = none ∧
      lsh_launch osD (lsh_split_line "ls".data) = none :=
  ⟨rfl, rfl, claim_C1.2.2.2.1 osD (lsh_split_line "ls".data) rfl rfl⟩

/-- Claim C2: a line made only of whitespace tokenizes to the lone sentinel,
so the first element of the argument vector is absent, `lsh_execute`
returns 1 on the empty-command path without running a builtin or the
launcher, and the loop goes on to the next iteration. -/
theorem claim_C2 (line : List Char) (os : OS)
    (h : ∀ c ∈ line, isDelim c = true) :
    lsh_split_line line = [none]
  ∧ lsh_execute os (lsh_split_line line) = some ⟨1, Dispatch.empty, none, none⟩
  ∧ (∀ oss fuel k stream rest, lsh_read_line stream = (line, rest) →
      lsh_loop_aux oss (fuel + 1) k stream = lsh_loop_aux oss fuel (k + 1) rest) := by
  have ht : tokenize line = [] := tokenize_all_delim line h
  have h1 : lsh_split_line line = [none] := by simp [lsh_split_line, ht]
  have harg : getArg (lsh_split_line line) 0 = none := by rw [h1]; rfl
  refine ⟨h1, lsh_execute_empty os (lsh_split_line line) harg, ?_⟩
  intro oss fuel k stream rest hr
  rw [lsh_loop_aux_succ, hr]
  show (match lsh_execute (oss k) (lsh_split_line line) with
    | none => LoopOutcome.blocked
    | some er =>
      if er.ret = 0 then LoopOutcome.finished
      else lsh_loop_aux oss fuel (k + 1) rest) = _
  rw [lsh_execute_empty (oss k) (lsh_split_line line) harg]
  rfl

/-- Witness for C2 at the line `" \t"`. -/
theorem claim_C2_witness :
    lsh_split_line " \t".data = [none]
  ∧ lsh_execute osA (lsh_split_line " \t".data) =
      some ⟨1, Dispatch.empty, none, none⟩ :=
  ⟨(claim_C2 " \t".data osA (by decide)).1,
   (claim_C2 " \t".data osA (by decide)).2.1⟩

/-- Claim C3: `lsh_exit` only returns 0 and has no other effect; a dispatch
that returns 0 makes the loop finish; and whenever the loop finishes,
`main` returns `EXIT_SUCCESS`, whatever the oracle answered on earlier
commands. -/
theorem claim_C3 :
    (∀ os args, lsh_exit os args = ⟨0, [], [], none, none⟩)
  ∧ (∀ oss fuel k stream er,
      lsh_execute (oss k) (lsh_split_line (lsh_read_line stream).1) = some er →
      er.ret = 0 →
      lsh_loop_aux oss (fuel + 1) k stream = LoopOutcome.finished)
  ∧ (∀ oss fuel stream, lsh_loop oss fuel stream = LoopOutcome.finished →
      main_ret oss fuel stream = some EXIT_SUCCESS) := by
  refine ⟨fun _ _ => rfl, ?_, ?_⟩
  · intro oss fuel k stream er hex hret
    rw [lsh_loop_aux_succ, hex]
    show (if er.ret = 0 then LoopOutcome.finished
      else lsh_loop_aux oss fuel (k + 1) (lsh_read_line stream).2) = _
    rw [if_pos hret]
  · intro oss fuel stream h
    unfold main_ret
    rw [h]

/-- Witness for C3: typing `exit` finishes the loop and `main` returns
`EXIT_SUCCESS`. -/
theorem claim_C3_witness :
    main_ret ossA 1 "exit".data = some EXIT_SUCCESS :=
  claim_C3.2.2 ossA 1 "exit".data (by decide)

/-- Claim C4: in the parent, `lsh_launch` returns 1 on every path: after a
terminal child status whatever the child's exit code, and also when the
`fork` itself fails, in which case the failure is reported and 1 is still
returned. -/
theorem claim_C4 :
    (∀ os args r, lsh_launch os args = some r → r.ret = 1)
  ∧ (∀ os args, os.forkOk = false →
      lsh_launch os args = some ⟨1, true, ["lsh"], [], none, none, none⟩)
  ∧ (∀ os args s, os.forkOk = true → waitLoop os.waits = some s →
      ∃ r, lsh_launch os args = some r ∧ r.ret = 1 ∧ r.finalStatus = some s) := by
  refine ⟨lsh_launch_ret, lsh_launch_eq_forkfail, ?_⟩
  intro os args s hf hw
  by_cases he : os.execOk = true
  · exact ⟨_, lsh_launch_eq_execok os args s hf he hw, rfl, rfl⟩
  · exact ⟨_, lsh_launch_eq_execfail os args s hf (by simpa using he) hw,
      rfl, rfl⟩

/-- Witness for C4 at an oracle whose `fork` fails: the failure is reported
and the launcher still returns 1. -/
theorem claim_C4_witness :
    osC.forkOk = false ∧
      lsh_launch osC (lsh_split_line "ls".data) =
        some ⟨1, true, ["lsh"], [], none, none, none⟩ :=
  ⟨rfl, claim_C4.2.1 osC (lsh_split_line "ls".data) rfl⟩

/-- Claim C5: tokenization splits on runs of the five delimiter characters,
discarding leading, trailing and repeated delimiters: `"a b"` and
`"  a   b  "` both give `["a","b"]`, re-tokenizing the joined output of a
tokenization is the identity, and every produced token is nonempty and
delimiter-free. -/
theorem claim_C5 :
    tokenize "a b".data = ["a".data, "b".data]
  ∧ tokenize "  a   b  ".data = ["a".data, "b".data]
  ∧ lsh_split_line "  a   b  ".data = [some "a".data, some "b".data, none]
  ∧ (∀ l, tokenize (joinSp (tokenize l)) = tokenize l)
  ∧ (∀ l t, t ∈ tokenize l → t ≠ [] ∧ ∀ c ∈ t, isDelim c = false) :=
  ⟨by decide, by decide, by decide, tokenize_idem,
   fun l t ht => mem_tokenize_nonempty_delim_free l t ht⟩

/-- Witness for C5: the token `"a"` of `"a b"` is nonempty. -/
theorem claim_C5_witness :
    "a".data ∈ tokenize "a b".data ∧ "a".data ≠ [] :=
  ⟨by decide, (claim_C5.2.2.2.2 "a b".data "a".data (by decide)).1⟩

/-- Claim C6: `lsh_cd` with no `args[1]` reports an error and attempts no
directory change; with `args[1]` present it attempts the change and
reports the operating-system error on failure; it returns 1 in every
case. -/
theorem claim_C6 (os : OS) (args : List (Option (List Char))) :
    (getArg args 1 = none →
      lsh_cd os args = ⟨1, ["lsh: expected argument to \"cd\""], [], none, none⟩)
  ∧ (∀ p, getArg args 1 = some p → os.chdirOk p = false →
      lsh_cd os args = ⟨1, ["lsh"], [], some p, none⟩)
  ∧ (∀ p, getArg args 1 = some p → os.chdirOk p = true →
      lsh_cd os args = ⟨1, [], [], some p, some p⟩)
  ∧ (lsh_cd os args).ret = 1 := by
  refine ⟨?_, ?_, ?_, lsh_cd_ret os args⟩
  · intro h1
    unfold lsh_cd
    rw [h1]
  · intro p hp hc
    simp [lsh_cd, hp, hc]
  · intro p hp hc
    simp [lsh_cd, hp, hc]

/-- Witness for C6 at the bare command `cd`: the error is reported, nothing
is changed, and 1 is returned. -/
theorem claim_C6_witness :
    lsh_cd osA (lsh_split_line "cd".data) =
      ⟨1, ["lsh: expected argument to \"cd\""], [], none, none⟩ :=
  (claim_C6 osA (lsh_split_line "cd".data)).1 (by decide)

/-- Claim C7: when `execvp` fails, the child reports the failure and
terminates with `EXIT_FAILURE` while the parent still returns 1; the
dispatch of a non-builtin command then yields that result, and a nonzero
status makes the loop go on to the next iteration rather than
terminate. -/
theorem claim_C7 (os : OS) (args : List (Option (List Char))) (s : WStatus)
    (hfork : os.forkOk = true) (hexec : os.execOk = false)
    (hwait : waitLoop os.waits = some s) :
    lsh_launch os args =
      some ⟨1, false, [], ["lsh"], some EXIT_FAILURE, none, some s⟩
  ∧ (∀ cmd, getArg args 0 = some cmd → findMatch cmd builtin_str = none →
      lsh_execute os args =
        some ⟨1, Dispatch.launch, none,
          some ⟨1, false, [], ["lsh"], some EXIT_FAILURE, none, some s⟩⟩)
  ∧ (∀ oss fuel k stream er,
      lsh_execute (oss k) (lsh_split_line (lsh_read_line stream).1) = some er →
      er.ret ≠ 0 →
      lsh_loop_aux oss (fuel + 1) k stream =
        lsh_loop_aux oss fuel (k + 1) (lsh_read_line stream).2) := by
  have hl := lsh_launch_eq_execfail os args s hfork hexec hwait
  refine ⟨hl, ?_, ?_⟩
  · intro cmd h0 hfm
    exact lsh_execute_eq_launch_some os args cmd _ h0 hfm hl
  · intro oss fuel k stream er hex hret
    rw [lsh_loop_aux_succ, hex]
    show (if er.ret = 0 then LoopOutcome.finished
      else lsh_loop_aux oss fuel (k + 1) (lsh_read_line stream).2) = _
    rw [if_neg hret]

/-- Witness for C7 at an oracle whose `execvp` fails and whose child then
exits with status 1. -/
theorem claim_C7_witness :
    lsh_launch osB (lsh_split_line "nosuchcmd".data) =
      some ⟨1, false, [], ["lsh"], some EXIT_FAILURE, none,
        some (WStatus.exited 1)⟩ :=
  (claim_C7 osB (lsh_split_line "nosuchcmd".data) (WStatus.exited 1)
    rfl rfl rfl).1

/-- Claim C8: every argument vector returned by `lsh_split_line` ends with
the `NULL` sentinel, and the empty line yields the vector holding only the
sentinel. -/
theorem claim_C8 :
    (∀ line, (lsh_split_line line).getLast? = some none)
  ∧ lsh_split_line [] = [none] := by
  refine ⟨?_, by decide⟩
  intro line
  unfold lsh_split_line
  rw [List.getLast?_concat]

/-- Claim C9: end-of-input never terminates the interpreter — on the
exhausted stream the loop never reaches the finished state; a dispatched
command returns 0 exactly when its first token is `exit`; hence the loop
finishes only when one of the lines it read has first token `exit`. -/
theorem claim_C9 :
    (∀ oss fuel k, lsh_loop_aux oss fuel k [] ≠ LoopOutcome.finished)
  ∧ (∀ os args er, lsh_execute os args = some er →
      (er.ret = 0 ↔ getArg args 0 = some "exit".data))
  ∧ (∀ oss fuel k stream, lsh_loop_aux oss fuel k stream = LoopOutcome.finished →
      ∃ line ∈ streamLines fuel stream,
        (tokenize line).head? = some "exit".data) := by
  refine ⟨?_, exec_ret_zero_iff, ?_⟩
  · intro oss fuel
    induction fuel with
    | zero => intro k h; simp [lsh_loop_aux] at h
    | succ n ih =>
      intro k h
      exact ih (k + 1) h
  · intro oss fuel
    induction fuel with
    | zero => intro k stream h; simp [lsh_loop_aux] at h
    | succ n ih =>
      intro k stream h
      rw [lsh_loop_aux_succ] at h
      cases hex : lsh_execute (oss k) (lsh_split_line (lsh_read_line stream).1) with
      | none =>
        rw [hex] at h
        simp at h
      | some er =>
        rw [hex] at h
        have h' : (if er.ret = 0 then LoopOutcome.finished
            else lsh_loop_aux oss n (k + 1) (lsh_read_line stream).2) =
            LoopOutcome.finished := h
        by_cases hret : er.ret = 0
        · have h0 := (exec_ret_zero_iff _ _ er hex).mp hret
          rw [getArg_split_zero] at h0
          exact ⟨(lsh_read_line stream).1,
            List.mem_cons_self _ _, h0⟩
        · rw [if_neg hret] at h'
          obtain ⟨line, hmem, hline⟩ := ih (k + 1) (lsh_read_line stream).2 h'
          exact ⟨line, List.mem_cons_of_mem _ hmem, hline⟩

/-- Witness for C9: a concrete dispatch result of the `exit` line satisfies
the returned-0-iff-first-token-`exit` equivalence. -/
theorem claim_C9_witness :
    ((⟨0, Dispatch.builtin 2, some ⟨0, [], [], none, none⟩, none⟩ : ExecResult).ret = 0
      ↔ getArg (lsh_split_line "exit".data) 0 = some "exit".data) :=
  claim_C9.2.1 osA (lsh_split_line "exit".data)
    ⟨0, Dispatch.builtin 2, some ⟨0, [], [], none, none⟩, none⟩ (by decide)

/-- Claim C10: end-of-input after a partial line returns that line exactly
as a newline would have, and the loop dispatches it identically — in
particular the stream holding just `exit` with no newline finishes the
loop. -/
theorem claim_C10 (s t : List Char) (h : '\n' ∉ s) :
    lsh_read_line s = (s, [])
  ∧ lsh_read_line (s ++ '\n' :: t) = (s, t)
  ∧ (∀ oss fuel k, lsh_loop_aux oss (fuel + 1) k "exit".data = LoopOutcome.finished) :=
  ⟨lsh_read_line_no_newline s h, lsh_read_line_newline s t h,
   fun oss fuel k => rfl⟩

/-- Witness for C10 at the line `exit` with and without a trailing
newline. -/
theorem claim_C10_witness :
    lsh_read_line "exit".data = ("exit".data, [])
  ∧ lsh_read_line ("exit".data ++ '\n' :: "ls".data) = ("exit".data, "ls".data) :=
  ⟨(claim_C10 "exit".data "ls".data (by decide)).1,
   (claim_C10 "exit".data "ls".data (by decide)).2.1⟩

end Lsh
